import Mathlib

/-!
Verification of the chunked-extraction pipeline (extraction-component).

The repository has three driver scripts sharing one architecture:
* `src/extract_script.py`  — text mode: per-chunk text checkpoints (`<stem>.txt`),
  final artifact = chunk texts joined with a blank line, in canonical chunk order.
* `src/test.py`            — structured per-clause mode: per-chunk JSON checkpoints
  (`<stem>.json`) holding `{act_name, act_number, clauses}`, final artifact is the
  merged object.
* `src/test_v1.py`         — grouped mode: per-chunk JSON checkpoints holding a flat
  array of clause records, final artifact is the concatenated array.

This file shallowly embeds the parts of those scripts that the claims are about:
directory listings become lists, the checkpoint directory becomes an association
list from filename to content, the remote extractor becomes an oracle
`Nat → Outcome` giving the result of each attempt, and `time.sleep` calls are
recorded as a list of durations.  Python's `sorted` on strings compares Unicode
code points, embedded here as `lexLe` on `Char` lists; `pathlib.Path(...).stem`
is embedded as `stem`.
-/

namespace Extraction

/-- Lexicographic comparison of character lists by code point, the order used by
Python's `sorted` on strings. -/
def lexLe : List Char → List Char → Bool
  | [], _ => true
  | _ :: _, [] => false
  | a :: as, b :: bs =>
    if a < b then true
    else if a = b then lexLe as bs
    else false

theorem lexLe_cons (a b : Char) (as bs : List Char) :
    lexLe (a :: as) (b :: bs) =
      if a < b then true else if a = b then lexLe as bs else false := rfl

theorem lexLe_nil_left (bs : List Char) : lexLe [] bs = true := rfl

theorem lexLe_cons_nil (a : Char) (as : List Char) : lexLe (a :: as) [] = false := rfl

theorem lexLe_total : ∀ as bs : List Char, lexLe as bs = true ∨ lexLe bs as = true := by
  intro as
  induction as with
  | nil => intro bs; exact Or.inl rfl
  | cons a as ih =>
    intro bs
    cases bs with
    | nil => exact Or.inr rfl
    | cons b bs =>
      rcases lt_trichotomy a b with hab | hab | hab
      · left; rw [lexLe_cons, if_pos hab]
      · subst hab
        rcases ih bs with h | h
        · left; rw [lexLe_cons, if_neg (lt_irrefl a), if_pos rfl]; exact h
        · right; rw [lexLe_cons, if_neg (lt_irrefl a), if_pos rfl]; exact h
      · right; rw [lexLe_cons, if_pos hab]

theorem lexLe_trans : ∀ as bs cs : List Char,
    lexLe as bs = true → lexLe bs cs = true → lexLe as cs = true := by
  intro as
  induction as with
  | nil => intro bs cs _ _; rfl
  | cons a as ih =>
    intro bs cs h1 h2
    cases bs with
    | nil => rw [lexLe_cons_nil] at h1; exact Bool.noConfusion h1
    | cons b bs =>
      cases cs with
      | nil => rw [lexLe_cons_nil] at h2; exact Bool.noConfusion h2
      | cons c cs =>
        rw [lexLe_cons] at h1 h2 ⊢
        by_cases hab : a < b
        · by_cases hbc : b < c
          · rw [if_pos (lt_trans hab hbc)]
          · by_cases hbc' : b = c
            · subst hbc'; rw [if_pos hab]
            · rw [if_neg hbc, if_neg hbc'] at h2; exact Bool.noConfusion h2
        · by_cases hab' : a = b
          · subst hab'
            rw [if_neg hab, if_pos rfl] at h1
            by_cases hbc : a < c
            · rw [if_pos hbc]
            · by_cases hbc' : a = c
              · subst hbc'
                rw [if_neg hbc, if_pos rfl] at h2 ⊢
                exact ih bs cs h1 h2
              · rw [if_neg hbc, if_neg hbc'] at h2; exact Bool.noConfusion h2
          · rw [if_neg hab, if_neg hab'] at h1; exact Bool.noConfusion h1

theorem lexLe_antisymm : ∀ as bs : List Char,
    lexLe as bs = true → lexLe bs as = true → as = bs := by
  intro as
  induction as with
  | nil =>
    intro bs h1 h2
    cases bs with
    | nil => rfl
    | cons b bs => rw [lexLe_cons_nil] at h2; exact Bool.noConfusion h2
  | cons a as ih =>
    intro bs h1 h2
    cases bs with
    | nil => rw [lexLe_cons_nil] at h1; exact Bool.noConfusion h1
    | cons b bs =>
      rw [lexLe_cons] at h1 h2
      by_cases hab : a < b
      · rw [if_neg (lt_asymm hab), if_neg (ne_of_lt hab).symm] at h2
        exact Bool.noConfusion h2
      · by_cases hab' : a = b
        · subst hab'
          rw [if_neg hab, if_pos rfl] at h1 h2
          rw [ih bs h1 h2]
        · rw [if_neg hab, if_neg hab'] at h1; exact Bool.noConfusion h1

/-- Python string order (code-point lexicographic), as a `Prop`-valued relation
so that Mathlib's `List.insertionSort` machinery applies. -/
def strLe (a b : String) : Prop := lexLe a.toList b.toList = true

instance : DecidableRel strLe := fun _ _ => inferInstanceAs (Decidable (_ = true))

instance : IsTotal String strLe := ⟨fun a b => lexLe_total a.toList b.toList⟩

instance : IsTrans String strLe :=
  ⟨fun a b c h1 h2 => lexLe_trans a.toList b.toList c.toList h1 h2⟩

instance : IsAntisymm String strLe :=
  ⟨fun a b h1 h2 => String.ext (lexLe_antisymm a.toList b.toList h1 h2)⟩

/-- Python's `sorted` on a list of strings. -/
def sortStrings (l : List String) : List String := List.insertionSort strLe l

theorem sortStrings_sorted (l : List String) : List.Sorted strLe (sortStrings l) :=
  List.sorted_insertionSort strLe l

theorem sortStrings_perm (l : List String) : (sortStrings l).Perm l :=
  List.perm_insertionSort strLe l

/-- Sorting strings depends only on the multiset of inputs: `sorted` of any
reordering of a directory listing is the same list. -/
theorem sortStrings_congr_perm {l₁ l₂ : List String} (h : l₁.Perm l₂) :
    sortStrings l₁ = sortStrings l₂ :=
  List.eq_of_perm_of_sorted
    ((sortStrings_perm l₁).trans (h.trans (sortStrings_perm l₂).symm))
    (sortStrings_sorted l₁) (sortStrings_sorted l₂)

theorem sortStrings_cons (m : String) (l : List String) :
    sortStrings (m :: l) = List.orderedInsert strLe m (sortStrings l) := rfl

/-- Index of the last `'.'` in a character list, if any. -/
def lastDotIdx (cs : List Char) : Option Nat :=
  ((List.range cs.length).filter (fun i => cs.getD i ' ' = '.')).getLast?

/-- `pathlib.Path(name).stem`: the file name without its last suffix.  CPython
takes the suffix from the last `'.'` only when that dot is neither the first
nor the last character of the name. -/
def stem (name : String) : String :=
  let cs := name.toList
  match lastDotIdx cs with
  | some i => if 0 < i ∧ i + 1 < cs.length then String.mk (cs.take i) else name
  | none => name

/-- ASCII lowering of a character, the fragment of `str.lower` relevant to the
file names handled by these scripts. -/
def asciiLowerChar (c : Char) : Char :=
  if 'A' ≤ c ∧ c ≤ 'Z' then Char.ofNat (c.toNat + 32) else c

/-- ASCII lowering of a string (`str.lower` restricted to ASCII names). -/
def asciiLower (s : String) : String := String.mk (s.toList.map asciiLowerChar)

/-- Executable `str.endswith` (core `String.endsWith` does not reduce in the
kernel, so we compute on the underlying character lists). -/
def strEndsWith (s t : String) : Bool :=
  s.toList.reverse.take t.toList.length == t.toList.reverse

/-- The filter `filename.lower().endswith(".pdf")` used at chunk discovery. -/
def isPdf (f : String) : Bool := strEndsWith (asciiLower f) ".pdf"

/-- A checkpoint or output directory: an association list from file name (with
extension) to file content.  Writes of fresh names append; listing order is
arbitrary, which is why the scripts apply `sorted` before using it. -/
abbrev Fs (α : Type) := List (String × α)

/-- File names present in a directory (`os.listdir`). -/
def fsNames {α : Type} (fs : Fs α) : List String := fs.map Prod.fst

/-- Read a file's content, `none` when absent. -/
def fsRead {α : Type} : Fs α → String → Option α
  | [], _ => none
  | (k, v) :: rest, n => if k = n then some v else fsRead rest n

/-- `os.path.exists` for a file inside the directory. -/
def fsExists {α : Type} (fs : Fs α) (n : String) : Bool := (fsRead fs n).isSome

/-- Write (create or overwrite) a file. -/
def fsWrite {α : Type} : Fs α → String → α → Fs α
  | [], n, v => [(n, v)]
  | (k, w) :: rest, n, v => if k = n then (n, v) :: rest else (k, w) :: fsWrite rest n v

/-- One chunk of a document: the subfolder it was discovered in ("Initial Chunk"
or "Overlap Chunk") and its file name. -/
structure Chunk where
  subfolder : String
  filename : String
deriving DecidableEq

/-- Result of one remote extraction attempt: a payload, or a failure that is or
is not a rate-limit signal ("429"/"ResourceExhausted" in the message). -/
inductive Outcome (γ : Type) where
  | ok (payload : γ)
  | err (rateLimit : Bool)
deriving DecidableEq

/-- Trace of the retry loop for one chunk: number of extractor invocations,
sequence of `time.sleep` durations in seconds, and the successful payload if
any attempt succeeded. -/
structure AttemptsResult (γ : Type) where
  calls : Nat
  sleeps : List Nat
  result : Option γ
deriving DecidableEq

/-- All three scripts set `MAX_RETRIES = 3`. -/
def MAX_RETRIES : Nat := 3

/-- The retry loop `for attempt in range(MAX_RETRIES)` of all three scripts.
`o i` is the outcome of the `i`-th attempt; on success the script writes the
checkpoint, sleeps `okSleep` and breaks; on failure it sleeps `cooldown rl`
(the scripts sleep even after the final failed attempt) and retries. -/
def attemptLoop {γ : Type} (okSleep : Nat) (cooldown : Bool → Nat)
    (o : Nat → Outcome γ) : Nat → Nat → AttemptsResult γ
  | _, 0 => ⟨0, [], none⟩
  | i, fuel + 1 =>
    match o i with
    | .ok p => ⟨1, [okSleep], some p⟩
    | .err rl =>
      let r := attemptLoop okSleep cooldown o (i + 1) fuel
      ⟨r.calls + 1, cooldown rl :: r.sleeps, r.result⟩

/-- Name of a chunk's checkpoint file: filename stem plus the mode's extension
(`".txt"` or `".json"`).  This is the chunk identity used for resumability. -/
def ckptName (ext : String) (c : Chunk) : String := stem c.filename ++ ext

/-- Result of processing one chunk: the updated checkpoint directory, remote
call count, checkpoint write count, recorded sleeps, and whether the chunk
ended in success (checkpoint present) or permanent failure. -/
structure ChunkRun (α : Type) where
  fs : Fs α
  calls : Nat
  writes : Nat
  sleeps : List Nat
  succeeded : Bool
deriving DecidableEq

/-- Per-chunk processing, common to all three scripts: skip immediately when
the checkpoint file exists, otherwise run the bounded retry loop and persist a
success (`inj` embeds the extractor payload into the stored file content; it is
`id` for text mode and `TempFile.valid` for the JSON modes). -/
def processChunk {γ α : Type} (ext : String) (okSleep : Nat) (cooldown : Bool → Nat)
    (inj : γ → α) (fs : Fs α) (c : Chunk) (o : Nat → Outcome γ) : ChunkRun α :=
  if fsExists fs (ckptName ext c) then ⟨fs, 0, 0, [], true⟩
  else
    match (attemptLoop okSleep cooldown o 0 MAX_RETRIES).result with
    | some p =>
      ⟨fsWrite fs (ckptName ext c) (inj p),
       (attemptLoop okSleep cooldown o 0 MAX_RETRIES).calls, 1,
       (attemptLoop okSleep cooldown o 0 MAX_RETRIES).sleeps, true⟩
    | none =>
      ⟨fs, (attemptLoop okSleep cooldown o 0 MAX_RETRIES).calls, 0,
       (attemptLoop okSleep cooldown o 0 MAX_RETRIES).sleeps, false⟩

/-- Result of the per-document chunk loop: final checkpoint directory, total
remote calls, total checkpoint writes, and the chunks that were not skipped by
the checkpoint check (i.e. for which extraction was attempted this run). -/
structure DocRun (α : Type) where
  fs : Fs α
  calls : Nat
  writes : Nat
  attempted : List Chunk
deriving DecidableEq

/-- The `for chunk_path in chunks_to_process` loop: process each chunk in
order, threading the checkpoint directory; a chunk whose retries are exhausted
contributes nothing and the loop continues. -/
def processChunks {γ α : Type} (ext : String) (okSleep : Nat) (cooldown : Bool → Nat)
    (inj : γ → α) (fs : Fs α) :
    List Chunk → (Chunk → Nat → Outcome γ) → DocRun α
  | [], _ => ⟨fs, 0, 0, []⟩
  | c :: rest, o =>
    let r := processChunk ext okSleep cooldown inj fs c (o c)
    let d := processChunks ext okSleep cooldown inj r.fs rest o
    ⟨d.fs, r.calls + d.calls, r.writes + d.writes,
      (if fsExists fs (ckptName ext c) then [] else [c]) ++ d.attempted⟩

/-- Relative path of a chunk below the document folder, the string the
structured scripts sort by (the shared absolute prefix cannot change the
relative order of two such paths under lexicographic comparison). -/
def chunkRelPath (c : Chunk) : String := c.subfolder ++ "/" ++ c.filename

/-- Order on chunks used by `test.py` / `test_v1.py` discovery: compare full
chunk paths as strings. -/
def chunkLe (a b : Chunk) : Prop := strLe (chunkRelPath a) (chunkRelPath b)

instance : DecidableRel chunkLe := fun a b =>
  inferInstanceAs (Decidable (strLe (chunkRelPath a) (chunkRelPath b)))

instance : IsTotal Chunk chunkLe := ⟨fun _ _ => total_of strLe _ _⟩

instance : IsTrans Chunk chunkLe :=
  ⟨fun _ _ _ h1 h2 => trans_of strLe h1 h2⟩

/-- Chunk discovery of `test.py` / `test_v1.py`: one `sorted` over the combined
list of full paths of the `.pdf` files of the "Initial Chunk" and
"Overlap Chunk" subfolders. -/
def chunksSortedByPath (initialListing overlapListing : List String) : List Chunk :=
  List.insertionSort chunkLe
    ((initialListing.filter isPdf).map (fun f => ⟨"Initial Chunk", f⟩) ++
     (overlapListing.filter isPdf).map (fun f => ⟨"Overlap Chunk", f⟩))

/-- Content of a structured-mode checkpoint file: either a payload of the
expected shape, or bytes that fail `json.load` at assembly time. -/
inductive TempFile (β : Type) where
  | valid (data : β)
  | malformed
deriving DecidableEq

/-- Clause records are opaque payloads for the claims considered here. -/
abbrev Clause := String

/-- The assembly enumeration of the structured scripts:
`sorted([... for f in os.listdir(temp_act_chunk_path) if f.endswith('.json')])`.
Note the input is the checkpoint directory, not the document's chunk list. -/
def jsonNamesSorted {β : Type} (fs : Fs β) : List String :=
  sortStrings ((fsNames fs).filter (fun n => strEndsWith n ".json"))

end Extraction

namespace Extraction.ExtractScript

/-- extract_script.py: `MAX_RETRIES = 3` (shared value `Extraction.MAX_RETRIES`). -/
def RETRY_DELAY_SECONDS : Nat := 70

/-- extract_script.py: proactive pause after each successful extraction. -/
def PROACTIVE_DELAY_SECONDS : Nat := 65

/-- extract_script.py classifies nothing: every failed attempt sleeps 10
seconds (`time.sleep(10)` in the generic `except` branch); the script's
`RETRY_DELAY_SECONDS` constant is defined but never used by the retry loop. -/
def textCooldown : Bool → Nat := fun _ => 10

/-- Chunk discovery of extract_script.py: for each subfolder in
`["Initial Chunk", "Overlap Chunk"]`, the sorted listing filtered to `.pdf`
files, the two groups concatenated in that order. -/
def chunks_to_process (initialListing overlapListing : List String) :
    List Extraction.Chunk :=
  ((Extraction.sortStrings initialListing).filter Extraction.isPdf).map
      (fun f => ⟨"Initial Chunk", f⟩) ++
  ((Extraction.sortStrings overlapListing).filter Extraction.isPdf).map
      (fun f => ⟨"Overlap Chunk", f⟩)

/-- Text-mode per-chunk processing (checkpoint files `<stem>.txt`). -/
def processChunkT (fs : Extraction.Fs String) (c : Extraction.Chunk)
    (o : Nat → Extraction.Outcome String) : Extraction.ChunkRun String :=
  Extraction.processChunk ".txt" PROACTIVE_DELAY_SECONDS textCooldown id fs c o

/-- Text-mode chunk loop over a document. -/
def processChunksT (fs : Extraction.Fs String) (chunks : List Extraction.Chunk)
    (o : Extraction.Chunk → Nat → Extraction.Outcome String) : Extraction.DocRun String :=
  Extraction.processChunks ".txt" PROACTIVE_DELAY_SECONDS textCooldown id fs chunks o

/-- The `final_text_parts` accumulator: iterate the document's chunk list in
its original sorted order and collect the contents of the checkpoint files
that exist. -/
def final_text_parts (chunks : List Extraction.Chunk) (fs : Extraction.Fs String) :
    List String :=
  chunks.filterMap (fun c => Extraction.fsRead fs (Extraction.ckptName ".txt" c))

/-- The final text artifact: the collected parts joined with a blank line, or
nothing when no part was collected (`if final_text_parts:`). -/
def full_act_text (chunks : List Extraction.Chunk) (fs : Extraction.Fs String) :
    Option String :=
  if (final_text_parts chunks fs).isEmpty then none
  else some (String.intercalate "\n\n" (final_text_parts chunks fs))

/-- Result of running extract_script.py's document loop body on one act. -/
structure ActRun where
  finalFs : Extraction.Fs String
  tempFs : Extraction.Fs String
  calls : Nat
  writes : Nat
deriving DecidableEq

/-- One iteration of the act loop of extract_script.py.  There is no check of
the final artifact file: the script goes straight to the chunk loop and, when
any part was recovered, (re)writes `<act>.txt` in the final output folder. -/
def runAct (finalFs tempFs : Extraction.Fs String) (act : String)
    (initialListing overlapListing : List String)
    (o : Extraction.Chunk → Nat → Extraction.Outcome String) : ActRun :=
  let chunks := chunks_to_process initialListing overlapListing
  if chunks.isEmpty then ⟨finalFs, tempFs, 0, 0⟩
  else
    let d := processChunksT tempFs chunks o
    match full_act_text chunks d.fs with
    | some t => ⟨Extraction.fsWrite finalFs (act ++ ".txt") t, d.fs, d.calls, d.writes⟩
    | none => ⟨finalFs, d.fs, d.calls, d.writes⟩

end Extraction.ExtractScript

namespace Extraction.TestPy

/-- test.py: rate-limit cooldown (`RETRY_DELAY_SECONDS = 70`). -/
def RETRY_DELAY_SECONDS : Nat := 70

/-- test.py: proactive pause after each successful extraction. -/
def PROACTIVE_DELAY_SECONDS : Nat := 5

/-- test.py failure classification: `"429" in str(e) or "ResourceExhausted" in
str(e)` sleeps `RETRY_DELAY_SECONDS`, anything else sleeps 10 seconds. -/
def errCooldown : Bool → Nat := fun rl => if rl then RETRY_DELAY_SECONDS else 10

/-- Payload of one structured checkpoint as test.py's assembler reads it:
`temp_data.get("act_name")` and `temp_data.get("act_number")` (`none` models a
missing key, which Python's `get` answers with `None`), and the `"clauses"`
list (a missing or empty list contributes nothing either way). -/
structure ChunkJson where
  act_name : Option String
  act_number : Option String
  clauses : List Extraction.Clause
deriving DecidableEq

/-- Per-chunk processing of test.py (checkpoint files `<stem>.json`, payload
written as well-formed JSON). -/
def processChunkT (fs : Extraction.Fs (Extraction.TempFile ChunkJson))
    (c : Extraction.Chunk) (o : Nat → Extraction.Outcome ChunkJson) :
    Extraction.ChunkRun (Extraction.TempFile ChunkJson) :=
  Extraction.processChunk ".json" PROACTIVE_DELAY_SECONDS errCooldown
    Extraction.TempFile.valid fs c o

/-- Chunk loop of test.py over a document. -/
def processChunksT (fs : Extraction.Fs (Extraction.TempFile ChunkJson))
    (chunks : List Extraction.Chunk)
    (o : Extraction.Chunk → Nat → Extraction.Outcome ChunkJson) :
    Extraction.DocRun (Extraction.TempFile ChunkJson) :=
  Extraction.processChunks ".json" PROACTIVE_DELAY_SECONDS errCooldown
    Extraction.TempFile.valid fs chunks o

/-- Accumulator of test.py's final combination: `all_clauses`,
`final_act_name`, `final_act_number`.  The metadata variables start as the
Python string `"Unknown"` and may be overwritten by whatever
`temp_data.get(...)` returned, including `None`; hence `Option String`
initialised with `some "Unknown"`. -/
structure Combined where
  all_clauses : List Extraction.Clause
  final_act_name : Option String
  final_act_number : Option String
deriving DecidableEq

/-- Body of test.py's assembly loop for one checkpoint file name: a file that
fails to decode (or unexpectedly disappeared) is caught, logged and skipped;
a valid file extends `all_clauses` and fills each still-`"Unknown"` metadata
field whose incoming value differs from `"Unknown"`. -/
def combineStep (fs : Extraction.Fs (Extraction.TempFile ChunkJson))
    (acc : Combined) (n : String) : Combined :=
  match Extraction.fsRead fs n with
  | some (Extraction.TempFile.valid d) =>
    { all_clauses :=
        if d.clauses.isEmpty then acc.all_clauses else acc.all_clauses ++ d.clauses
      final_act_name :=
        if acc.final_act_name = some "Unknown" ∧ d.act_name ≠ some "Unknown" then
          d.act_name
        else acc.final_act_name
      final_act_number :=
        if acc.final_act_number = some "Unknown" ∧ d.act_number ≠ some "Unknown" then
          d.act_number
        else acc.final_act_number }
  | _ => acc

/-- test.py's full assembly fold over the sorted `.json` names of the
document's checkpoint directory. -/
def combineAll (fs : Extraction.Fs (Extraction.TempFile ChunkJson)) : Combined :=
  (Extraction.jsonNamesSorted fs).foldl (combineStep fs) ⟨[], some "Unknown", some "Unknown"⟩

/-- Shape of the final artifact `{act_name, act_number, clauses}` of test.py. -/
structure FinalJson where
  act_name : Option String
  act_number : Option String
  clauses : List Extraction.Clause
deriving DecidableEq

/-- The final artifact of test.py: written only when `all_clauses` is
non-empty (`if all_clauses:`). -/
def final_json_data (fs : Extraction.Fs (Extraction.TempFile ChunkJson)) :
    Option FinalJson :=
  if (combineAll fs).all_clauses.isEmpty then none
  else some ⟨(combineAll fs).final_act_name, (combineAll fs).final_act_number,
             (combineAll fs).all_clauses⟩

/-- Result of running test.py's act loop body on one act. -/
structure ActRun where
  finalFs : Extraction.Fs FinalJson
  tempFs : Extraction.Fs (Extraction.TempFile ChunkJson)
  calls : Nat
  writes : Nat
deriving DecidableEq

/-- One iteration of the act loop of test.py: skip the whole act when the
final artifact file exists, otherwise discover chunks, process them, and
assemble from the checkpoint directory. -/
def runAct (finalFs : Extraction.Fs FinalJson)
    (tempFs : Extraction.Fs (Extraction.TempFile ChunkJson)) (act : String)
    (initialListing overlapListing : List String)
    (o : Extraction.Chunk → Nat → Extraction.Outcome ChunkJson) : ActRun :=
  if Extraction.fsExists finalFs (act ++ ".json") then ⟨finalFs, tempFs, 0, 0⟩
  else
    let chunks := Extraction.chunksSortedByPath initialListing overlapListing
    if chunks.isEmpty then ⟨finalFs, tempFs, 0, 0⟩
    else
      let d := processChunksT tempFs chunks o
      match final_json_data d.fs with
      | some j => ⟨Extraction.fsWrite finalFs (act ++ ".json") j, d.fs, d.calls, d.writes⟩
      | none => ⟨finalFs, d.fs, d.calls, d.writes⟩

end Extraction.TestPy

namespace Extraction.TestV1

/-- test_v1.py: rate-limit cooldown (`RETRY_DELAY_SECONDS = 70`). -/
def RETRY_DELAY_SECONDS : Nat := 70

/-- test_v1.py: proactive pause after each successful extraction. -/
def PROACTIVE_DELAY_SECONDS : Nat := 5

/-- test_v1.py uses the same failure classification as test.py. -/
def errCooldown : Bool → Nat := fun rl => if rl then RETRY_DELAY_SECONDS else 10

/-- A test_v1.py checkpoint file holds a flat JSON array of clause records. -/
abbrev ChunkArray := List Extraction.Clause

/-- Per-chunk processing of test_v1.py. -/
def processChunkT (fs : Extraction.Fs (Extraction.TempFile ChunkArray))
    (c : Extraction.Chunk) (o : Nat → Extraction.Outcome ChunkArray) :
    Extraction.ChunkRun (Extraction.TempFile ChunkArray) :=
  Extraction.processChunk ".json" PROACTIVE_DELAY_SECONDS errCooldown
    Extraction.TempFile.valid fs c o

/-- Chunk loop of test_v1.py over a document. -/
def processChunksT (fs : Extraction.Fs (Extraction.TempFile ChunkArray))
    (chunks : List Extraction.Chunk)
    (o : Extraction.Chunk → Nat → Extraction.Outcome ChunkArray) :
    Extraction.DocRun (Extraction.TempFile ChunkArray) :=
  Extraction.processChunks ".json" PROACTIVE_DELAY_SECONDS errCooldown
    Extraction.TempFile.valid fs chunks o

/-- Body of test_v1.py's assembly loop: a decode failure is caught and
skipped, a valid file extends the master list with its clause array. -/
def combineArrayStep (fs : Extraction.Fs (Extraction.TempFile ChunkArray))
    (acc : List Extraction.Clause) (n : String) : List Extraction.Clause :=
  match Extraction.fsRead fs n with
  | some (Extraction.TempFile.valid l) => acc ++ l
  | _ => acc

/-- test_v1.py's `master_clause_list`: fold over the sorted `.json` names of
the checkpoint directory. -/
def master_clause_list (fs : Extraction.Fs (Extraction.TempFile ChunkArray)) :
    List Extraction.Clause :=
  (Extraction.jsonNamesSorted fs).foldl (combineArrayStep fs) []

/-- The final artifact of test_v1.py: the master list, written only when
non-empty (`if master_clause_list:`). -/
def finalArray (fs : Extraction.Fs (Extraction.TempFile ChunkArray)) :
    Option (List Extraction.Clause) :=
  if (master_clause_list fs).isEmpty then none else some (master_clause_list fs)

/-- Result of running test_v1.py's act loop body on one act. -/
structure ActRun where
  finalFs : Extraction.Fs (List Extraction.Clause)
  tempFs : Extraction.Fs (Extraction.TempFile ChunkArray)
  calls : Nat
  writes : Nat
deriving DecidableEq

/-- One iteration of the act loop of test_v1.py: same structure as test.py's,
with the array-shaped artifact. -/
def runAct (finalFs : Extraction.Fs (List Extraction.Clause))
    (tempFs : Extraction.Fs (Extraction.TempFile ChunkArray)) (act : String)
    (initialListing overlapListing : List String)
    (o : Extraction.Chunk → Nat → Extraction.Outcome ChunkArray) : ActRun :=
  if Extraction.fsExists finalFs (act ++ ".json") then ⟨finalFs, tempFs, 0, 0⟩
  else
    let chunks := Extraction.chunksSortedByPath initialListing overlapListing
    if chunks.isEmpty then ⟨finalFs, tempFs, 0, 0⟩
    else
      let d := processChunksT tempFs chunks o
      match finalArray d.fs with
      | some l => ⟨Extraction.fsWrite finalFs (act ++ ".json") l, d.fs, d.calls, d.writes⟩
      | none => ⟨finalFs, d.fs, d.calls, d.writes⟩

end Extraction.TestV1

namespace Extraction

theorem fsNames_cons {α : Type} (p : String × α) (fs : Fs α) :
    fsNames (p :: fs) = p.1 :: fsNames fs := rfl

theorem fsNames_append {α : Type} (fs gs : Fs α) :
    fsNames (fs ++ gs) = fsNames fs ++ fsNames gs := by
  simp [fsNames]

theorem fsRead_isSome_iff_mem {α : Type} (fs : Fs α) (n : String) :
    (fsRead fs n).isSome = true ↔ n ∈ fsNames fs := by
  induction fs with
  | nil => simp [fsRead, fsNames]
  | cons p rest ih =>
    obtain ⟨k, v⟩ := p
    by_cases h : k = n
    · subst h; simp [fsRead, fsNames]
    · simp [fsRead, fsNames, h, Ne.symm h, ih]

theorem fsExists_iff_mem {α : Type} (fs : Fs α) (n : String) :
    fsExists fs n = true ↔ n ∈ fsNames fs := fsRead_isSome_iff_mem fs n

theorem fsExists_false_iff {α : Type} (fs : Fs α) (n : String) :
    fsExists fs n = false ↔ n ∉ fsNames fs := by
  rw [← fsExists_iff_mem fs n]
  cases fsExists fs n <;> simp

theorem fsRead_append_left {α : Type} (fs gs : Fs α) (n : String)
    (h : (fsRead fs n).isSome = true) : fsRead (fs ++ gs) n = fsRead fs n := by
  induction fs with
  | nil => simp [fsRead] at h
  | cons p rest ih =>
    obtain ⟨k, v⟩ := p
    by_cases hk : k = n
    · subst hk; simp [fsRead]
    · simp only [fsRead, if_neg hk, List.cons_append] at h ⊢
      exact ih h

theorem fsRead_append_right {α : Type} (fs gs : Fs α) (n : String)
    (h : n ∉ fsNames fs) : fsRead (fs ++ gs) n = fsRead gs n := by
  induction fs with
  | nil => rfl
  | cons p rest ih =>
    obtain ⟨k, v⟩ := p
    rw [fsNames_cons, List.mem_cons] at h
    push_neg at h
    have hk : ¬ (k = n) := fun e => h.1 e.symm
    show (if k = n then some v else fsRead (rest ++ gs) n) = fsRead gs n
    rw [if_neg hk]
    exact ih h.2

theorem fsExists_append {α : Type} (fs gs : Fs α) (n : String) :
    fsExists (fs ++ gs) n = (fsExists fs n || fsExists gs n) := by
  by_cases h : n ∈ fsNames fs
  · have h1 : (fsRead fs n).isSome = true := (fsRead_isSome_iff_mem fs n).mpr h
    show (fsRead (fs ++ gs) n).isSome = _
    rw [fsRead_append_left fs gs n h1]
    have h2 : fsExists fs n = true := h1
    rw [h2, Bool.true_or]
    exact h1
  · show (fsRead (fs ++ gs) n).isSome = _
    rw [fsRead_append_right fs gs n h]
    have h2 : fsExists fs n = false := (fsExists_false_iff fs n).mpr h
    rw [h2, Bool.false_or]
    rfl

theorem fsWrite_eq_append {α : Type} (fs : Fs α) (n : String) (v : α)
    (h : fsExists fs n = false) : fsWrite fs n v = fs ++ [(n, v)] := by
  induction fs with
  | nil => rfl
  | cons p rest ih =>
    obtain ⟨k, w⟩ := p
    have hk : ¬ (k = n) := by
      intro e; subst e
      simp [fsExists, fsRead] at h
    have h' : fsExists rest n = false := by
      simpa [fsExists, fsRead, hk] using h
    simp only [fsWrite, if_neg hk, List.cons_append]
    rw [ih h']

theorem fsExists_fsWrite_self {α : Type} (fs : Fs α) (n : String) (v : α) :
    fsExists (fsWrite fs n v) n = true := by
  induction fs with
  | nil => simp [fsWrite, fsExists, fsRead]
  | cons p rest ih =>
    obtain ⟨k, w⟩ := p
    by_cases hk : k = n
    · subst hk; simp [fsWrite, fsExists, fsRead]
    · simp only [fsWrite, if_neg hk]
      show (fsRead ((k, w) :: fsWrite rest n v) n).isSome = true
      simp only [fsRead, if_neg hk]
      exact ih

theorem fsRead_mem_nodup {α : Type} (fs : Fs α) (n : String) (v : α)
    (hnd : (fsNames fs).Nodup) (hm : (n, v) ∈ fs) : fsRead fs n = some v := by
  induction fs with
  | nil => cases hm
  | cons p rest ih =>
    obtain ⟨k, w⟩ := p
    rcases List.mem_cons.mp hm with h | h
    · have h1 : n = k := congrArg Prod.fst h
      have h2 : v = w := congrArg Prod.snd h
      subst h1; subst h2
      show (if n = n then some v else fsRead rest n) = some v
      rw [if_pos rfl]
    · have hn : n ∈ fsNames rest := List.mem_map_of_mem Prod.fst h
      rw [fsNames_cons] at hnd
      obtain ⟨hk, hnd'⟩ := List.nodup_cons.mp hnd
      have hne : ¬ (k = n) := fun e => hk (e ▸ hn)
      show (if k = n then some w else fsRead rest n) = some v
      rw [if_neg hne]
      exact ih hnd' h

theorem fsRead_perm {α : Type} {fs₁ fs₂ : Fs α} (h : fs₁.Perm fs₂) :
    (fsNames fs₁).Nodup → ∀ n : String, fsRead fs₁ n = fsRead fs₂ n := by
  induction h with
  | nil => intro _ _; rfl
  | cons x h ih =>
    intro hnd n
    obtain ⟨k, v⟩ := x
    rw [fsNames_cons] at hnd
    by_cases hk : k = n
    · simp only [fsRead, if_pos hk]
    · simp only [fsRead, if_neg hk]
      exact ih (List.nodup_cons.mp hnd).2 n
  | swap x y l =>
    intro hnd n
    obtain ⟨k₁, v₁⟩ := y
    obtain ⟨k₂, v₂⟩ := x
    rw [fsNames_cons, fsNames_cons] at hnd
    have hne : ¬ (k₁ = k₂) := by
      intro e
      refine (List.nodup_cons.mp hnd).1 ?_
      rw [e]
      exact List.mem_cons_self k₂ _
    by_cases h1 : k₁ = n
    · have h2 : ¬ (k₂ = n) := fun e => hne (h1.trans e.symm)
      simp only [fsRead, if_pos h1, if_neg h2]
    · by_cases h2 : k₂ = n
      · simp only [fsRead, if_neg h1, if_pos h2]
      · simp only [fsRead, if_neg h1, if_neg h2]
  | trans h₁ h₂ ih₁ ih₂ =>
    intro hnd n
    rw [ih₁ hnd n, ih₂ (((h₁.map Prod.fst).nodup_iff).mp hnd) n]

theorem foldl_congr_step {β γ : Type} {f g : β → γ → β} :
    ∀ (l : List γ) (acc : β), (∀ acc' a, a ∈ l → f acc' a = g acc' a) →
      l.foldl f acc = l.foldl g acc := by
  intro l
  induction l with
  | nil => intro acc _; rfl
  | cons x l ih =>
    intro acc h
    rw [List.foldl_cons, List.foldl_cons, h acc x (List.mem_cons_self x l)]
    exact ih _ (fun acc' a ha => h acc' a (List.mem_cons_of_mem x ha))

theorem foldl_orderedInsert_skip {β : Type} (step : β → String → β) (m : String)
    (hm : ∀ acc, step acc m = acc) :
    ∀ (S : List String) (acc : β),
      (List.orderedInsert strLe m S).foldl step acc = S.foldl step acc := by
  intro S
  induction S with
  | nil => intro acc; simp [List.orderedInsert, hm]
  | cons s S ih =>
    intro acc
    by_cases h : strLe m s
    · simp only [List.orderedInsert, if_pos h, List.foldl_cons, hm]
    · simp only [List.orderedInsert, if_neg h, List.foldl_cons]
      exact ih (step acc s)

theorem attemptLoop_calls_le {γ : Type} (okS : Nat) (cd : Bool → Nat)
    (o : Nat → Outcome γ) :
    ∀ (fuel i : Nat), (attemptLoop okS cd o i fuel).calls ≤ fuel := by
  intro fuel
  induction fuel with
  | zero => intro i; exact Nat.le_refl 0
  | succ fuel ih =>
    intro i
    cases ho : o i with
    | ok p => simp [attemptLoop, ho]
    | err rl =>
      simp only [attemptLoop, ho]
      exact Nat.succ_le_succ (ih (i + 1))

theorem attemptLoop_sleeps_get {γ : Type} (okS : Nat) (cd : Bool → Nat)
    (o : Nat → Outcome γ) :
    ∀ (fuel i j : Nat) (rl : Bool), o (i + j) = .err rl →
      j < (attemptLoop okS cd o i fuel).calls →
      (attemptLoop okS cd o i fuel).sleeps.get? j = some (cd rl) := by
  intro fuel
  induction fuel with
  | zero => intro i j rl _ hj; simp [attemptLoop] at hj
  | succ fuel ih =>
    intro i j rl ho hj
    cases hoi : o i with
    | ok p =>
      simp only [attemptLoop, hoi] at hj ⊢
      have hj0 : j = 0 := Nat.lt_one_iff.mp hj
      subst hj0
      rw [Nat.add_zero, hoi] at ho
      exact Outcome.noConfusion ho
    | err rl0 =>
      cases j with
      | zero =>
        rw [Nat.add_zero, hoi] at ho
        injection ho with hrl
        subst hrl
        simp [attemptLoop, hoi]
      | succ j =>
        simp only [attemptLoop, hoi] at hj ⊢
        rw [List.get?_cons_succ]
        have harith : i + (j + 1) = (i + 1) + j := by omega
        rw [harith] at ho
        exact ih (i + 1) j rl ho (Nat.lt_of_succ_lt_succ hj)

theorem attemptLoop_allfail {γ : Type} (okS : Nat) (cd : Bool → Nat)
    (o : Nat → Outcome γ) (h : ∀ n, ∃ rl, o n = .err rl) :
    ∀ (fuel i : Nat), (attemptLoop okS cd o i fuel).result = none ∧
      (attemptLoop okS cd o i fuel).calls = fuel := by
  intro fuel
  induction fuel with
  | zero => intro i; exact ⟨rfl, rfl⟩
  | succ fuel ih =>
    intro i
    obtain ⟨rl, hrl⟩ := h i
    refine ⟨?_, ?_⟩ <;> simp [attemptLoop, hrl, (ih (i + 1)).1, (ih (i + 1)).2]

theorem processChunk_skip {γ α : Type} (ext : String) (okS : Nat) (cd : Bool → Nat)
    (inj : γ → α) (fs : Fs α) (c : Chunk) (o : Nat → Outcome γ)
    (h : fsExists fs (ckptName ext c) = true) :
    processChunk ext okS cd inj fs c o = ⟨fs, 0, 0, [], true⟩ := by
  simp [processChunk, h]

theorem processChunk_succeeded_ckpt {γ α : Type} (ext : String) (okS : Nat)
    (cd : Bool → Nat) (inj : γ → α) (fs : Fs α) (c : Chunk) (o : Nat → Outcome γ)
    (h : (processChunk ext okS cd inj fs c o).succeeded = true) :
    fsExists (processChunk ext okS cd inj fs c o).fs (ckptName ext c) = true := by
  by_cases hex : fsExists fs (ckptName ext c)
  · rw [processChunk_skip ext okS cd inj fs c o hex]
    exact hex
  · cases hres : (attemptLoop okS cd o 0 MAX_RETRIES).result with
    | none => simp [processChunk, hex, hres] at h
    | some p =>
      simp only [processChunk, hex, if_false, Bool.false_eq_true, if_neg, hres]
      exact fsExists_fsWrite_self fs (ckptName ext c) (inj p)

end Extraction

namespace Extraction

/-- The checkpoint file, if any, that processing chunk `c` against the initial
checkpoint directory `fs0` creates: nothing when the chunk is already
checkpointed or when every attempt fails, otherwise one file named after the
chunk's stem holding the first successful payload. -/
def chunkWrite {γ α : Type} (ext : String) (okS : Nat) (cd : Bool → Nat) (inj : γ → α)
    (fs0 : Fs α) (o : Chunk → Nat → Outcome γ) (c : Chunk) : Option (String × α) :=
  if fsExists fs0 (ckptName ext c) then none
  else
    match (attemptLoop okS cd (o c) 0 MAX_RETRIES).result with
    | some p => some (ckptName ext c, inj p)
    | none => none

theorem processChunks_cons {γ α : Type} (ext : String) (okS : Nat) (cd : Bool → Nat)
    (inj : γ → α) (fs : Fs α) (c : Chunk) (rest : List Chunk)
    (o : Chunk → Nat → Outcome γ) :
    processChunks ext okS cd inj fs (c :: rest) o =
      ⟨(processChunks ext okS cd inj (processChunk ext okS cd inj fs c (o c)).fs rest o).fs,
       (processChunk ext okS cd inj fs c (o c)).calls +
         (processChunks ext okS cd inj (processChunk ext okS cd inj fs c (o c)).fs rest o).calls,
       (processChunk ext okS cd inj fs c (o c)).writes +
         (processChunks ext okS cd inj (processChunk ext okS cd inj fs c (o c)).fs rest o).writes,
       (if fsExists fs (ckptName ext c) then [] else [c]) ++
         (processChunks ext okS cd inj (processChunk ext okS cd inj fs c (o c)).fs rest o).attempted⟩ :=
  rfl

theorem chunkWrite_some {γ α : Type} {ext : String} {okS : Nat} {cd : Bool → Nat}
    {inj : γ → α} {fs0 : Fs α} {o : Chunk → Nat → Outcome γ} {c : Chunk}
    {p : String × α} (hcw : chunkWrite ext okS cd inj fs0 o c = some p) :
    p.1 = ckptName ext c ∧ fsExists fs0 (ckptName ext c) = false := by
  unfold chunkWrite at hcw
  by_cases hex : fsExists fs0 (ckptName ext c)
  · rw [if_pos hex] at hcw; exact Option.noConfusion hcw
  · rw [if_neg hex] at hcw
    refine ⟨?_, Bool.eq_false_iff.mpr hex⟩
    cases hres : (attemptLoop okS cd (o c) 0 MAX_RETRIES).result with
    | none => rw [hres] at hcw; exact Option.noConfusion hcw
    | some q =>
      rw [hres] at hcw
      injection hcw with hq
      rw [← hq]

theorem processChunk_fs_eq {γ α : Type} (ext : String) (okS : Nat) (cd : Bool → Nat)
    (inj : γ → α) (fs : Fs α) (c : Chunk) (o : Chunk → Nat → Outcome γ) :
    (processChunk ext okS cd inj fs c (o c)).fs
      = fs ++ (chunkWrite ext okS cd inj fs o c).toList := by
  by_cases hex : fsExists fs (ckptName ext c)
  · simp [processChunk, chunkWrite, hex]
  · cases hres : (attemptLoop okS cd (o c) 0 MAX_RETRIES).result with
    | some p =>
      have hfs : fsExists fs (ckptName ext c) = false := Bool.eq_false_iff.mpr hex
      simp [processChunk, chunkWrite, hex, hres,
        fsWrite_eq_append fs (ckptName ext c) (inj p) hfs]
    | none => simp [processChunk, chunkWrite, hex, hres]

theorem fsExists_nil {α : Type} (n : String) : fsExists ([] : Fs α) n = false := rfl

theorem processChunks_eq {γ α : Type} (ext : String) (okS : Nat) (cd : Bool → Nat)
    (inj : γ → α) (o : Chunk → Nat → Outcome γ) :
    ∀ (chunks : List Chunk) (fs0 : Fs α),
      (chunks.map (ckptName ext)).Nodup →
      (processChunks ext okS cd inj fs0 chunks o).fs
          = fs0 ++ chunks.filterMap (chunkWrite ext okS cd inj fs0 o) ∧
      (processChunks ext okS cd inj fs0 chunks o).attempted
          = chunks.filter (fun c => !(fsExists fs0 (ckptName ext c))) := by
  intro chunks
  induction chunks with
  | nil =>
    intro fs0 _
    exact ⟨(List.append_nil fs0).symm, rfl⟩
  | cons c rest ih =>
    intro fs0 hnd
    obtain ⟨hnotin, hnd'⟩ := List.nodup_cons.mp hnd
    have hfs1 : (processChunk ext okS cd inj fs0 c (o c)).fs
        = fs0 ++ (chunkWrite ext okS cd inj fs0 o c).toList :=
      processChunk_fs_eq ext okS cd inj fs0 c o
    have hex_eq : ∀ c' ∈ rest,
        fsExists ((processChunk ext okS cd inj fs0 c (o c)).fs) (ckptName ext c')
          = fsExists fs0 (ckptName ext c') := by
      intro c' hc'
      have hne : ¬ (ckptName ext c' = ckptName ext c) := by
        intro e
        refine hnotin ?_
        rw [← e]
        exact List.mem_map_of_mem (ckptName ext) hc'
      rw [hfs1, fsExists_append]
      cases hcw : chunkWrite ext okS cd inj fs0 o c with
      | none => simp [fsExists_nil]
      | some p =>
        obtain ⟨k, v⟩ := p
        have hk : k = ckptName ext c := (chunkWrite_some hcw).1
        have hone : fsExists [(k, v)] (ckptName ext c') = false := by
          show (if k = ckptName ext c' then some v else none).isSome = false
          rw [if_neg ?_]
          · rfl
          · rw [hk]
            exact fun e => hne e.symm
        simp [hone]
    have hcw_eq : ∀ c' ∈ rest,
        chunkWrite ext okS cd inj ((processChunk ext okS cd inj fs0 c (o c)).fs) o c'
          = chunkWrite ext okS cd inj fs0 o c' := by
      intro c' hc'
      unfold chunkWrite
      rw [hex_eq c' hc']
    obtain ⟨ihfs, ihatt⟩ := ih ((processChunk ext okS cd inj fs0 c (o c)).fs) hnd'
    rw [processChunks_cons]
    constructor
    · show (processChunks ext okS cd inj ((processChunk ext okS cd inj fs0 c (o c)).fs) rest o).fs = _
      rw [ihfs, List.filterMap_congr (fun x hx => hcw_eq x hx), hfs1, List.append_assoc]
      congr 1
      rw [List.filterMap_cons]
      cases hcw : chunkWrite ext okS cd inj fs0 o c with
      | none => simp
      | some p => simp
    · show (if fsExists fs0 (ckptName ext c) then [] else [c]) ++
          (processChunks ext okS cd inj ((processChunk ext okS cd inj fs0 c (o c)).fs) rest o).attempted = _
      rw [ihatt, List.filter_congr (fun x hx => by rw [hex_eq x hx]), List.filter_cons]
      by_cases hexc : fsExists fs0 (ckptName ext c)
      · simp [hexc]
      · simp [hexc]

end Extraction

namespace Extraction

theorem writes_names_sublist {γ α : Type} (ext : String) (okS : Nat) (cd : Bool → Nat)
    (inj : γ → α) (fs0 : Fs α) (o : Chunk → Nat → Outcome γ) :
    ∀ chunks : List Chunk,
      ((chunks.filterMap (chunkWrite ext okS cd inj fs0 o)).map Prod.fst).Sublist
        (chunks.map (ckptName ext)) := by
  intro chunks
  induction chunks with
  | nil => exact List.Sublist.refl []
  | cons c rest ih =>
    rw [List.filterMap_cons, List.map_cons]
    cases hcw : chunkWrite ext okS cd inj fs0 o c with
    | none => exact List.Sublist.cons _ ih
    | some p =>
      rw [List.map_cons, (chunkWrite_some hcw).1]
      exact List.Sublist.cons₂ _ ih

theorem writes_names_fresh {γ α : Type} (ext : String) (okS : Nat) (cd : Bool → Nat)
    (inj : γ → α) (fs0 : Fs α) (o : Chunk → Nat → Outcome γ) (chunks : List Chunk) :
    ∀ p ∈ chunks.filterMap (chunkWrite ext okS cd inj fs0 o), p.1 ∉ fsNames fs0 := by
  intro p hp
  obtain ⟨c, _, hcw⟩ := List.mem_filterMap.mp hp
  have h := chunkWrite_some hcw
  rw [h.1]
  exact (fsExists_false_iff fs0 _).mp h.2

/-- Processing a document's chunks keeps the checkpoint directory's file names
distinct, provided they were distinct before and the chunks' checkpoint names
are distinct. -/
theorem processChunks_nodup {γ α : Type} (ext : String) (okS : Nat) (cd : Bool → Nat)
    (inj : γ → α) (o : Chunk → Nat → Outcome γ) (chunks : List Chunk) (fs0 : Fs α)
    (hndF : (fsNames fs0).Nodup) (hndC : (chunks.map (ckptName ext)).Nodup) :
    (fsNames ((processChunks ext okS cd inj fs0 chunks o).fs)).Nodup := by
  rw [(processChunks_eq ext okS cd inj o chunks fs0 hndC).1, fsNames_append]
  refine List.Nodup.append hndF ?_ ?_
  · exact (writes_names_sublist ext okS cd inj fs0 o chunks).nodup hndC
  · rw [List.disjoint_left]
    intro a ha hmem
    obtain ⟨p, hp, hpa⟩ := List.mem_map.mp hmem
    exact writes_names_fresh ext okS cd inj fs0 o chunks p hp (hpa.symm ▸ ha)

end Extraction

namespace Extraction.TestPy

/-- Clause contribution that test.py's assembly reads from one checkpoint file
name: the clauses of a valid file, nothing from a malformed or absent one. -/
def clausesAt (fs : Fs (TempFile ChunkJson)) (n : String) : List Clause :=
  match fsRead fs n with
  | some (TempFile.valid d) => d.clauses
  | _ => []

/-- Metadata value test.py's assembly reads from one checkpoint file name for
`act_name`; a malformed or absent file leaves the accumulator unchanged, which
coincides with reading the sentinel. -/
def actNameAt (fs : Fs (TempFile ChunkJson)) (n : String) : Option String :=
  match fsRead fs n with
  | some (TempFile.valid d) => d.act_name
  | _ => some "Unknown"

/-- Metadata value for `act_number`, as `actNameAt`. -/
def actNumberAt (fs : Fs (TempFile ChunkJson)) (n : String) : Option String :=
  match fsRead fs n with
  | some (TempFile.valid d) => d.act_number
  | _ => some "Unknown"

/-- Specification-side description of the metadata fill, to be compared with
the code's fold: the first value in assembly order that differs from the
sentinel `"Unknown"`, and the sentinel when there is none. -/
def firstNonUnknown : List (Option String) → Option String
  | [] => some "Unknown"
  | v :: vs => if v ≠ some "Unknown" then v else firstNonUnknown vs

theorem firstNonUnknown_cons (v : Option String) (vs : List (Option String)) :
    firstNonUnknown (v :: vs) =
      if v ≠ some "Unknown" then v else firstNonUnknown vs := rfl

theorem combineStep_clauses (fs : Fs (TempFile ChunkJson)) (acc : Combined) (n : String) :
    (combineStep fs acc n).all_clauses = acc.all_clauses ++ clausesAt fs n := by
  unfold combineStep clausesAt
  cases h : fsRead fs n with
  | none => simp
  | some t =>
    cases t with
    | malformed => simp
    | valid d =>
      by_cases he : d.clauses.isEmpty
      · simp [he, List.isEmpty_iff.mp he]
      · simp [he]

theorem combine_clauses_foldl (fs : Fs (TempFile ChunkJson)) :
    ∀ (l : List String) (acc : Combined),
      (l.foldl (combineStep fs) acc).all_clauses
        = acc.all_clauses ++ (l.map (clausesAt fs)).flatten := by
  intro l
  induction l with
  | nil => intro acc; simp
  | cons n rest ih =>
    intro acc
    rw [List.foldl_cons, ih, combineStep_clauses, List.map_cons, List.flatten_cons,
      List.append_assoc]

theorem combineStep_name (fs : Fs (TempFile ChunkJson)) (acc : Combined) (n : String) :
    (combineStep fs acc n).final_act_name =
      if acc.final_act_name = some "Unknown" ∧ actNameAt fs n ≠ some "Unknown"
      then actNameAt fs n else acc.final_act_name := by
  unfold combineStep actNameAt
  cases h : fsRead fs n with
  | none => simp
  | some t =>
    cases t with
    | malformed => simp
    | valid d => simp

theorem combineStep_number (fs : Fs (TempFile ChunkJson)) (acc : Combined) (n : String) :
    (combineStep fs acc n).final_act_number =
      if acc.final_act_number = some "Unknown" ∧ actNumberAt fs n ≠ some "Unknown"
      then actNumberAt fs n else acc.final_act_number := by
  unfold combineStep actNumberAt
  cases h : fsRead fs n with
  | none => simp
  | some t =>
    cases t with
    | malformed => simp
    | valid d => simp

theorem combine_name_foldl (fs : Fs (TempFile ChunkJson)) :
    ∀ (l : List String) (acc : Combined),
      (l.foldl (combineStep fs) acc).final_act_name =
        if acc.final_act_name = some "Unknown"
        then firstNonUnknown (l.map (actNameAt fs))
        else acc.final_act_name := by
  intro l
  induction l with
  | nil =>
    intro acc
    by_cases h : acc.final_act_name = some "Unknown" <;> simp [h, firstNonUnknown]
  | cons n rest ih =>
    intro acc
    rw [List.foldl_cons, ih, List.map_cons, combineStep_name]
    by_cases hacc : acc.final_act_name = some "Unknown"
    · by_cases hv : actNameAt fs n ≠ some "Unknown"
      · have hcond : acc.final_act_name = some "Unknown" ∧
            actNameAt fs n ≠ some "Unknown" := ⟨hacc, hv⟩
        rw [if_pos hcond, if_neg hv, if_pos hacc, firstNonUnknown_cons, if_pos hv]
      · have hcond : ¬ (acc.final_act_name = some "Unknown" ∧
            actNameAt fs n ≠ some "Unknown") := fun hc => hv hc.2
        rw [if_neg hcond, if_pos hacc, if_pos hacc, firstNonUnknown_cons, if_neg hv]
    · have hcond : ¬ (acc.final_act_name = some "Unknown" ∧
          actNameAt fs n ≠ some "Unknown") := fun hc => hacc hc.1
      rw [if_neg hcond, if_neg hacc, if_neg hacc]

theorem combine_number_foldl (fs : Fs (TempFile ChunkJson)) :
    ∀ (l : List String) (acc : Combined),
      (l.foldl (combineStep fs) acc).final_act_number =
        if acc.final_act_number = some "Unknown"
        then firstNonUnknown (l.map (actNumberAt fs))
        else acc.final_act_number := by
  intro l
  induction l with
  | nil =>
    intro acc
    by_cases h : acc.final_act_number = some "Unknown" <;> simp [h, firstNonUnknown]
  | cons n rest ih =>
    intro acc
    rw [List.foldl_cons, ih, List.map_cons, combineStep_number]
    by_cases hacc : acc.final_act_number = some "Unknown"
    · by_cases hv : actNumberAt fs n ≠ some "Unknown"
      · have hcond : acc.final_act_number = some "Unknown" ∧
            actNumberAt fs n ≠ some "Unknown" := ⟨hacc, hv⟩
        rw [if_pos hcond, if_neg hv, if_pos hacc, firstNonUnknown_cons, if_pos hv]
      · have hcond : ¬ (acc.final_act_number = some "Unknown" ∧
            actNumberAt fs n ≠ some "Unknown") := fun hc => hv hc.2
        rw [if_neg hcond, if_pos hacc, if_pos hacc, firstNonUnknown_cons, if_neg hv]
    · have hcond : ¬ (acc.final_act_number = some "Unknown" ∧
          actNumberAt fs n ≠ some "Unknown") := fun hc => hacc hc.1
      rw [if_neg hcond, if_neg hacc, if_neg hacc]

/-- test.py's assembled artifact depends only on the set of checkpoint files:
any reordering of the checkpoint directory yields the same artifact. -/
theorem final_json_perm {fs fs' : Fs (TempFile ChunkJson)}
    (hperm : fs.Perm fs') (hnd : (fsNames fs).Nodup) :
    final_json_data fs = final_json_data fs' := by
  have hnames : jsonNamesSorted fs = jsonNamesSorted fs' := by
    unfold jsonNamesSorted
    exact sortStrings_congr_perm ((hperm.map Prod.fst).filter _)
  have hread : ∀ n, fsRead fs n = fsRead fs' n := fsRead_perm hperm hnd
  have hall : combineAll fs = combineAll fs' := by
    unfold combineAll
    rw [hnames]
    refine foldl_congr_step _ _ ?_
    intro acc' a _
    unfold combineStep
    rw [hread a]
  unfold final_json_data
  rw [hall]

end Extraction.TestPy

namespace Extraction.TestV1

/-- Clause-array contribution that test_v1.py's assembly reads from one
checkpoint file name. -/
def arrayAt (fs : Fs (TempFile ChunkArray)) (n : String) : List Clause :=
  match fsRead fs n with
  | some (TempFile.valid l) => l
  | _ => []

theorem combineArrayStep_eq (fs : Fs (TempFile ChunkArray))
    (acc : List Clause) (n : String) :
    combineArrayStep fs acc n = acc ++ arrayAt fs n := by
  unfold combineArrayStep arrayAt
  cases h : fsRead fs n with
  | none => simp
  | some t =>
    cases t with
    | malformed => simp
    | valid l => simp

theorem master_foldl (fs : Fs (TempFile ChunkArray)) :
    ∀ (l : List String) (acc : List Clause),
      l.foldl (combineArrayStep fs) acc = acc ++ (l.map (arrayAt fs)).flatten := by
  intro l
  induction l with
  | nil => intro acc; simp
  | cons n rest ih =>
    intro acc
    rw [List.foldl_cons, ih, combineArrayStep_eq, List.map_cons, List.flatten_cons,
      List.append_assoc]

end Extraction.TestV1

namespace Extraction

theorem processChunk_calls_eq {γ α : Type} (ext : String) (okS : Nat) (cd : Bool → Nat)
    (inj : γ → α) (fs : Fs α) (c : Chunk) (o : Nat → Outcome γ)
    (hex : fsExists fs (ckptName ext c) = false) :
    (processChunk ext okS cd inj fs c o).calls
      = (attemptLoop okS cd o 0 MAX_RETRIES).calls := by
  have hnot : ¬ (fsExists fs (ckptName ext c) = true) := by
    rw [hex]; exact Bool.false_ne_true
  unfold processChunk
  rw [if_neg hnot]
  cases (attemptLoop okS cd o 0 MAX_RETRIES).result <;> rfl

theorem processChunk_sleeps_eq {γ α : Type} (ext : String) (okS : Nat) (cd : Bool → Nat)
    (inj : γ → α) (fs : Fs α) (c : Chunk) (o : Nat → Outcome γ)
    (hex : fsExists fs (ckptName ext c) = false) :
    (processChunk ext okS cd inj fs c o).sleeps
      = (attemptLoop okS cd o 0 MAX_RETRIES).sleeps := by
  have hnot : ¬ (fsExists fs (ckptName ext c) = true) := by
    rw [hex]; exact Bool.false_ne_true
  unfold processChunk
  rw [if_neg hnot]
  cases (attemptLoop okS cd o 0 MAX_RETRIES).result <;> rfl

/-- Sleeps of the shared retry loop are classified by the cooldown function:
the sleep recorded after the `j`-th attempt, when that attempt failed, is the
cooldown of that failure's classification. -/
theorem processChunk_sleeps_classified {γ α : Type} (ext : String) (okS : Nat)
    (cd : Bool → Nat) (inj : γ → α) (fs : Fs α) (c : Chunk) (o : Nat → Outcome γ)
    (j : Nat) (rl : Bool) (ho : o j = .err rl)
    (hj : j < (processChunk ext okS cd inj fs c o).calls) :
    (processChunk ext okS cd inj fs c o).sleeps.get? j = some (cd rl) := by
  by_cases hex : fsExists fs (ckptName ext c) = true
  · rw [processChunk_skip ext okS cd inj fs c o hex] at hj
    exact absurd hj (Nat.not_lt_zero j)
  · have hfalse : fsExists fs (ckptName ext c) = false := Bool.eq_false_iff.mpr hex
    rw [processChunk_calls_eq ext okS cd inj fs c o hfalse] at hj
    rw [processChunk_sleeps_eq ext okS cd inj fs c o hfalse]
    refine attemptLoop_sleeps_get okS cd o MAX_RETRIES 0 j rl ?_ hj
    rw [Nat.zero_add]
    exact ho

/-- The shared retry loop never makes more than `MAX_RETRIES` calls for one
chunk, whatever the failure classifications are. -/
theorem processChunk_calls_bound {γ α : Type} (ext : String) (okS : Nat)
    (cd : Bool → Nat) (inj : γ → α) (fs : Fs α) (c : Chunk) (o : Nat → Outcome γ) :
    (processChunk ext okS cd inj fs c o).calls ≤ MAX_RETRIES := by
  by_cases hex : fsExists fs (ckptName ext c) = true
  · rw [processChunk_skip ext okS cd inj fs c o hex]
    exact Nat.zero_le MAX_RETRIES
  · have hfalse : fsExists fs (ckptName ext c) = false := Bool.eq_false_iff.mpr hex
    rw [processChunk_calls_eq ext okS cd inj fs c o hfalse]
    exact attemptLoop_calls_le okS cd o MAX_RETRIES 0

end Extraction

namespace Extraction

/-- C2 counterexample: the text-mode script (extract_script.py) has no
whole-document skip.  With the final artifact `ActX.txt` already present in
the final output folder and an empty checkpoint directory, re-running the act
performs a remote extraction call (here exactly one) instead of zero. -/
theorem C2_counterexample :
    fsExists [("ActX.txt", "stale")] ("ActX" ++ ".txt") = true ∧
    (ExtractScript.runAct [("ActX.txt", "stale")] [] "ActX" ["a.pdf"] []
        (fun _ _ => Outcome.ok "T")).calls = 1 := by decide

/-- C2 amended: the whole-document skip holds in the structured scripts
(test.py and test_v1.py): when the document's final artifact file exists, the
act is skipped with zero remote calls, zero checkpoint writes, and both
directories unchanged.  The text-mode script has no such check (see the
counterexample); there only per-chunk checkpoints prevent re-extraction. -/
theorem C2_amended_skip_when_final_exists
    (finalFs : Fs TestPy.FinalJson) (tempFs : Fs (TempFile TestPy.ChunkJson))
    (finalFs1 : Fs (List Clause)) (tempFs1 : Fs (TempFile TestV1.ChunkArray))
    (act : String) (initL overL : List String)
    (o : Chunk → Nat → Outcome TestPy.ChunkJson)
    (o1 : Chunk → Nat → Outcome TestV1.ChunkArray)
    (h : fsExists finalFs (act ++ ".json") = true)
    (h1 : fsExists finalFs1 (act ++ ".json") = true) :
    TestPy.runAct finalFs tempFs act initL overL o = ⟨finalFs, tempFs, 0, 0⟩ ∧
    TestV1.runAct finalFs1 tempFs1 act initL overL o1 = ⟨finalFs1, tempFs1, 0, 0⟩ := by
  constructor
  · unfold TestPy.runAct
    rw [if_pos h]
  · unfold TestV1.runAct
    rw [if_pos h1]

theorem C2_amended_witness :
    TestPy.runAct [("ActX.json", (⟨none, none, []⟩ : TestPy.FinalJson))] [] "ActX"
        ["a.pdf"] [] (fun _ _ => Outcome.err false)
      = ⟨[("ActX.json", (⟨none, none, []⟩ : TestPy.FinalJson))], [], 0, 0⟩ :=
  (C2_amended_skip_when_final_exists
    [("ActX.json", (⟨none, none, []⟩ : TestPy.FinalJson))] []
    [("ActX.json", ["L"])] [] "ActX" ["a.pdf"] []
    (fun _ _ => Outcome.err false) (fun _ _ => Outcome.err false)
    (by decide) (by decide)).1

/-- C3 counterexample: extract_script.py never classifies failures.  A chunk
whose attempts all fail with a rate-limit signal sleeps 10 seconds after each
attempt, exactly as a chunk failing with generic errors does — the rate-limit
cooldown is not longer than the generic one, contradicting the claim that a
rate-limit signal triggers a longer fixed cooldown in every script. -/
theorem C3_counterexample :
    (ExtractScript.processChunkT [] ⟨"Initial Chunk", "a.pdf"⟩
        (fun _ => Outcome.err true)).sleeps = [10, 10, 10] ∧
    (ExtractScript.processChunkT [] ⟨"Initial Chunk", "a.pdf"⟩
        (fun _ => Outcome.err false)).sleeps = [10, 10, 10] := by decide

/-- C3 amended: in the structured scripts (test.py, test_v1.py; stated for
test.py) every failed attempt is classified before the next one — a
rate-limited failure is followed by the 70-second cooldown and any other
failure by the 10-second cooldown — and both classes stay under the shared
3-attempt limit.  In the text-mode script there is no classification: every
failed attempt, rate-limited or not, is followed by the same 10-second
cooldown, under the same 3-attempt limit. -/
theorem C3_amended_classified_cooldowns :
    (∀ (fs : Fs (TempFile TestPy.ChunkJson)) (c : Chunk)
        (o : Nat → Outcome TestPy.ChunkJson) (j : Nat) (rl : Bool),
      o j = .err rl → j < (TestPy.processChunkT fs c o).calls →
        (TestPy.processChunkT fs c o).sleeps.get? j
          = some (if rl then TestPy.RETRY_DELAY_SECONDS else 10)) ∧
    (∀ (fs : Fs (TempFile TestPy.ChunkJson)) (c : Chunk)
        (o : Nat → Outcome TestPy.ChunkJson),
      (TestPy.processChunkT fs c o).calls ≤ MAX_RETRIES) ∧
    (∀ (fs : Fs String) (c : Chunk) (o : Nat → Outcome String) (j : Nat) (rl : Bool),
      o j = .err rl → j < (ExtractScript.processChunkT fs c o).calls →
        (ExtractScript.processChunkT fs c o).sleeps.get? j = some 10) ∧
    (∀ (fs : Fs String) (c : Chunk) (o : Nat → Outcome String),
      (ExtractScript.processChunkT fs c o).calls ≤ MAX_RETRIES) := by
  refine ⟨?_, ?_, ?_, ?_⟩
  · intro fs c o j rl ho hj
    exact processChunk_sleeps_classified ".json" TestPy.PROACTIVE_DELAY_SECONDS
      TestPy.errCooldown TempFile.valid fs c o j rl ho hj
  · intro fs c o
    exact processChunk_calls_bound ".json" TestPy.PROACTIVE_DELAY_SECONDS
      TestPy.errCooldown TempFile.valid fs c o
  · intro fs c o j rl ho hj
    exact processChunk_sleeps_classified ".txt" ExtractScript.PROACTIVE_DELAY_SECONDS
      ExtractScript.textCooldown id fs c o j rl ho hj
  · intro fs c o
    exact processChunk_calls_bound ".txt" ExtractScript.PROACTIVE_DELAY_SECONDS
      ExtractScript.textCooldown id fs c o

theorem C3_amended_witness :
    (TestPy.processChunkT [] ⟨"Initial Chunk", "a.pdf"⟩
        (fun _ => Outcome.err true)).sleeps.get? 0
      = some (if true then TestPy.RETRY_DELAY_SECONDS else 10) :=
  C3_amended_classified_cooldowns.1 [] ⟨"Initial Chunk", "a.pdf"⟩
    (fun _ => Outcome.err true) 0 true rfl (by decide)

/-- C4: a chunk whose extraction fails on every attempt is attempted exactly
`MAX_RETRIES = 3` times, is reported as permanently failed, gets no checkpoint
write (the checkpoint directory is unchanged), and the loop then continues
with the remaining chunks: processing `c :: rest` equals processing `rest`
from the unchanged directory, plus the three failed calls and `c` recorded as
attempted. Stated for the text-mode script; all three scripts share the loop. -/
theorem C4_retry_bound (fs : Fs String) (c : Chunk) (rest : List Chunk)
    (o : Chunk → Nat → Outcome String)
    (hfail : ∀ n, ∃ rl, o c n = .err rl)
    (hnew : fsExists fs (ckptName ".txt" c) = false) :
    (ExtractScript.processChunkT fs c (o c)).calls = MAX_RETRIES ∧
    (ExtractScript.processChunkT fs c (o c)).writes = 0 ∧
    (ExtractScript.processChunkT fs c (o c)).fs = fs ∧
    (ExtractScript.processChunkT fs c (o c)).succeeded = false ∧
    ExtractScript.processChunksT fs (c :: rest) o =
      ⟨(ExtractScript.processChunksT fs rest o).fs,
       MAX_RETRIES + (ExtractScript.processChunksT fs rest o).calls,
       (ExtractScript.processChunksT fs rest o).writes,
       c :: (ExtractScript.processChunksT fs rest o).attempted⟩ := by
  unfold ExtractScript.processChunkT ExtractScript.processChunksT
  have hres := attemptLoop_allfail ExtractScript.PROACTIVE_DELAY_SECONDS
    ExtractScript.textCooldown (o c) hfail MAX_RETRIES 0
  have hnot : ¬ (fsExists fs (ckptName ".txt" c) = true) := by
    rw [hnew]; exact Bool.false_ne_true
  have hcalls : (processChunk ".txt" ExtractScript.PROACTIVE_DELAY_SECONDS
      ExtractScript.textCooldown id fs c (o c)).calls = MAX_RETRIES := by
    simp [processChunk, hnot, hres.1, hres.2]
  have hwrites : (processChunk ".txt" ExtractScript.PROACTIVE_DELAY_SECONDS
      ExtractScript.textCooldown id fs c (o c)).writes = 0 := by
    simp [processChunk, hnot, hres.1]
  have hfs : (processChunk ".txt" ExtractScript.PROACTIVE_DELAY_SECONDS
      ExtractScript.textCooldown id fs c (o c)).fs = fs := by
    simp [processChunk, hnot, hres.1]
  have hsucc : (processChunk ".txt" ExtractScript.PROACTIVE_DELAY_SECONDS
      ExtractScript.textCooldown id fs c (o c)).succeeded = false := by
    simp [processChunk, hnot, hres.1]
  refine ⟨hcalls, hwrites, hfs, hsucc, ?_⟩
  rw [processChunks_cons, hfs, hcalls, hwrites, hnew]
  simp

theorem C4_witness :
    (ExtractScript.processChunkT [] ⟨"Initial Chunk", "a.pdf"⟩
        ((fun (_ : Chunk) (_ : Nat) => Outcome.err (γ := String) false)
          ⟨"Initial Chunk", "a.pdf"⟩)).calls = MAX_RETRIES :=
  (C4_retry_bound [] ⟨"Initial Chunk", "a.pdf"⟩ []
    (fun _ _ => Outcome.err false) (fun _ => ⟨false, rfl⟩) rfl).1

/-- C6: a chunk whose checkpoint is already present in the checkpoint
directory is skipped before any extraction attempt — zero calls, zero writes,
directory unchanged, immediate success — and after any successful processor
run, running the processor again on the same chunk performs zero remote
calls.  Stated for test.py's processor; all three scripts share the check. -/
theorem C6_checkpoint_idempotence (fs : Fs (TempFile TestPy.ChunkJson)) (c : Chunk)
    (o o' : Nat → Outcome TestPy.ChunkJson) :
    (fsExists fs (ckptName ".json" c) = true →
      TestPy.processChunkT fs c o = ⟨fs, 0, 0, [], true⟩) ∧
    ((TestPy.processChunkT fs c o).succeeded = true →
      (TestPy.processChunkT (TestPy.processChunkT fs c o).fs c o').calls = 0) := by
  constructor
  · intro h
    unfold TestPy.processChunkT
    exact processChunk_skip ".json" TestPy.PROACTIVE_DELAY_SECONDS TestPy.errCooldown
      TempFile.valid fs c o h
  · intro h
    unfold TestPy.processChunkT at h ⊢
    have hex := processChunk_succeeded_ckpt ".json" TestPy.PROACTIVE_DELAY_SECONDS
      TestPy.errCooldown TempFile.valid fs c o h
    rw [processChunk_skip ".json" TestPy.PROACTIVE_DELAY_SECONDS TestPy.errCooldown
      TempFile.valid _ c o' hex]

theorem C6_witness :
    TestPy.processChunkT [("a.json", TempFile.valid ⟨none, none, []⟩)]
        ⟨"Initial Chunk", "a.pdf"⟩ (fun _ => Outcome.err false)
      = ⟨[("a.json", TempFile.valid ⟨none, none, []⟩)], 0, 0, [], true⟩ :=
  (C6_checkpoint_idempotence [("a.json", TempFile.valid ⟨none, none, []⟩)]
    ⟨"Initial Chunk", "a.pdf"⟩ (fun _ => Outcome.err false)
    (fun _ => Outcome.err false)).1 (by decide)

end Extraction

namespace Extraction

/-- C7: in text mode a final artifact exists exactly when at least one of the
document's chunks has a checkpoint, and when it exists its content is the
present chunks' texts joined with a blank-line separator in the document's
chunk order (`final_text_parts` iterates `chunks` in order); with zero
checkpoints no output value is produced. -/
theorem C7_text_artifact (chunks : List Chunk) (fs : Fs String) :
    ((∃ c, c ∈ chunks ∧ fsExists fs (ckptName ".txt" c) = true) ↔
      (ExtractScript.full_act_text chunks fs).isSome = true) ∧
    (∀ s, ExtractScript.full_act_text chunks fs = some s →
      s = String.intercalate "\n\n" (ExtractScript.final_text_parts chunks fs)) := by
  constructor
  · constructor
    · rintro ⟨c, hc, hex⟩
      unfold ExtractScript.full_act_text
      have hne : ¬ ((ExtractScript.final_text_parts chunks fs).isEmpty = true) := by
        rw [List.isEmpty_iff]
        intro he
        have hnone := List.filterMap_eq_nil_iff.mp he c hc
        have hex' : (fsRead fs (ckptName ".txt" c)).isSome = true := hex
        rw [hnone] at hex'
        exact Bool.noConfusion hex'
      rw [if_neg hne]
      rfl
    · intro hsome
      unfold ExtractScript.full_act_text at hsome
      by_cases he : (ExtractScript.final_text_parts chunks fs).isEmpty = true
      · rw [if_pos he] at hsome
        exact Bool.noConfusion hsome
      · have hnil : ExtractScript.final_text_parts chunks fs ≠ [] := by
          intro h0
          refine he ?_
          rw [h0]
          rfl
        obtain ⟨t, ht⟩ := List.exists_mem_of_ne_nil _ hnil
        obtain ⟨c, hc, hcr⟩ := List.mem_filterMap.mp ht
        refine ⟨c, hc, ?_⟩
        show (fsRead fs (ckptName ".txt" c)).isSome = true
        rw [hcr]
        rfl
  · intro s hs
    unfold ExtractScript.full_act_text at hs
    by_cases he : (ExtractScript.final_text_parts chunks fs).isEmpty = true
    · rw [if_pos he] at hs
      exact Option.noConfusion hs
    · rw [if_neg he] at hs
      injection hs with h
      exact h.symm

theorem C7_witness :
    (ExtractScript.full_act_text [⟨"Initial Chunk", "a.pdf"⟩]
        [("a.txt", "TEXT_A")]).isSome = true :=
  ((C7_text_artifact [⟨"Initial Chunk", "a.pdf"⟩] [("a.txt", "TEXT_A")]).1).mp
    ⟨⟨"Initial Chunk", "a.pdf"⟩, by decide, by decide⟩

/-- C8: in test.py's assembly the document metadata fields start at the
sentinel `"Unknown"` and each ends up as the first value in assembly order
that differs from the sentinel (the sentinel again when no file provides
one), and a fold started from an already-filled accumulator never overwrites
it — later chunks cannot change a filled field. -/
theorem C8_metadata_first_fill (fs : Fs (TempFile TestPy.ChunkJson)) :
    (TestPy.combineAll fs).final_act_name
        = TestPy.firstNonUnknown ((jsonNamesSorted fs).map (TestPy.actNameAt fs)) ∧
    (TestPy.combineAll fs).final_act_number
        = TestPy.firstNonUnknown ((jsonNamesSorted fs).map (TestPy.actNumberAt fs)) ∧
    (∀ (l : List String) (acc : TestPy.Combined),
      acc.final_act_name ≠ some "Unknown" →
        (l.foldl (TestPy.combineStep fs) acc).final_act_name = acc.final_act_name) ∧
    (∀ (l : List String) (acc : TestPy.Combined),
      acc.final_act_number ≠ some "Unknown" →
        (l.foldl (TestPy.combineStep fs) acc).final_act_number
          = acc.final_act_number) := by
  refine ⟨?_, ?_, ?_, ?_⟩
  · unfold TestPy.combineAll
    rw [TestPy.combine_name_foldl fs (jsonNamesSorted fs)
      ⟨[], some "Unknown", some "Unknown"⟩]
    simp
  · unfold TestPy.combineAll
    rw [TestPy.combine_number_foldl fs (jsonNamesSorted fs)
      ⟨[], some "Unknown", some "Unknown"⟩]
    simp
  · intro l acc h
    rw [TestPy.combine_name_foldl fs l acc, if_neg h]
  · intro l acc h
    rw [TestPy.combine_number_foldl fs l acc, if_neg h]

theorem C8_witness :
    (([] : List String).foldl (TestPy.combineStep [])
        ⟨[], some "X Act", some "Unknown"⟩).final_act_name = some "X Act" :=
  (C8_metadata_first_fill []).2.2.1 [] ⟨[], some "X Act", some "Unknown"⟩ (by decide)

/-- C9: a checkpoint file that fails to decode as JSON is dropped at assembly
time without affecting anything else: adding a malformed file (under any name
not already present) to the checkpoint directory leaves test.py's assembled
artifact unchanged — assembly of the remaining chunks proceeds and the
document is not aborted. -/
theorem C9_malformed_dropped (fs : Fs (TempFile TestPy.ChunkJson)) (m : String)
    (hm : fsRead fs m = none) :
    TestPy.final_json_data (fs ++ [(m, TempFile.malformed)])
      = TestPy.final_json_data fs := by
  have hmnotin : m ∉ fsNames fs := by
    intro hmem
    have hs := (fsRead_isSome_iff_mem fs m).mpr hmem
    rw [hm] at hs
    exact Bool.noConfusion hs
  have hreadm : fsRead (fs ++ [(m, TempFile.malformed)]) m
      = some TempFile.malformed := by
    rw [fsRead_append_right fs _ m hmnotin]
    show (if m = m then some TempFile.malformed else none) = some TempFile.malformed
    rw [if_pos rfl]
  have hread_old : ∀ n ∈ fsNames fs,
      fsRead (fs ++ [(m, TempFile.malformed)]) n = fsRead fs n := by
    intro n hn
    exact fsRead_append_left fs _ n ((fsRead_isSome_iff_mem fs n).mpr hn)
  have hstepm : ∀ acc,
      TestPy.combineStep (fs ++ [(m, TempFile.malformed)]) acc m = acc := by
    intro acc
    unfold TestPy.combineStep
    rw [hreadm]
  have hnames : fsNames (fs ++ [(m, TempFile.malformed)]) = fsNames fs ++ [m] :=
    fsNames_append fs _
  have hmemsorted : ∀ a, a ∈ jsonNamesSorted fs → a ∈ fsNames fs := by
    intro a ha
    have h1 : a ∈ (fsNames fs).filter (fun n => strEndsWith n ".json") :=
      (sortStrings_perm ((fsNames fs).filter (fun n => strEndsWith n ".json"))).mem_iff.mp ha
    exact (List.mem_filter.mp h1).1
  by_cases hj : strEndsWith m ".json" = true
  · have hfilter : (fsNames (fs ++ [(m, TempFile.malformed)])).filter
        (fun n => strEndsWith n ".json")
        = (fsNames fs).filter (fun n => strEndsWith n ".json") ++ [m] := by
      rw [hnames, List.filter_append]
      congr 1
      rw [List.filter_cons, if_pos hj]
      rfl
    have hsorted : jsonNamesSorted (fs ++ [(m, TempFile.malformed)])
        = List.orderedInsert strLe m (jsonNamesSorted fs) := by
      unfold jsonNamesSorted
      rw [hfilter, sortStrings_congr_perm (List.perm_append_singleton m _)]
      exact sortStrings_cons m _
    have hcomb : TestPy.combineAll (fs ++ [(m, TempFile.malformed)])
        = TestPy.combineAll fs := by
      unfold TestPy.combineAll
      rw [hsorted, foldl_orderedInsert_skip
        (TestPy.combineStep (fs ++ [(m, TempFile.malformed)])) m hstepm]
      refine foldl_congr_step _ _ ?_
      intro acc' a ha
      unfold TestPy.combineStep
      rw [hread_old a (hmemsorted a ha)]
    unfold TestPy.final_json_data
    rw [hcomb]
  · have hfone : List.filter (fun n => strEndsWith n ".json") [m] = [] := by
      rw [List.filter_cons, if_neg hj]
      rfl
    have hfilter : (fsNames (fs ++ [(m, TempFile.malformed)])).filter
        (fun n => strEndsWith n ".json")
        = (fsNames fs).filter (fun n => strEndsWith n ".json") := by
      rw [hnames, List.filter_append, hfone, List.append_nil]
    have hsorted : jsonNamesSorted (fs ++ [(m, TempFile.malformed)])
        = jsonNamesSorted fs := by
      unfold jsonNamesSorted
      rw [hfilter]
    have hcomb : TestPy.combineAll (fs ++ [(m, TempFile.malformed)])
        = TestPy.combineAll fs := by
      unfold TestPy.combineAll
      rw [hsorted]
      refine foldl_congr_step _ _ ?_
      intro acc' a ha
      unfold TestPy.combineStep
      rw [hread_old a (hmemsorted a ha)]
    unfold TestPy.final_json_data
    rw [hcomb]

theorem C9_witness :
    TestPy.final_json_data
        ([("a.json", TempFile.valid ⟨some "X Act", some "No. 5", ["A1"]⟩)]
          ++ [("bad.json", TempFile.malformed)])
      = TestPy.final_json_data
          [("a.json", TempFile.valid ⟨some "X Act", some "No. 5", ["A1"]⟩)] :=
  C9_malformed_dropped
    [("a.json", TempFile.valid ⟨some "X Act", some "No. 5", ["A1"]⟩)]
    "bad.json" (by decide)

/-- C10: test_v1.py's assembler enumerates the `.json` files of the
checkpoint directory — the document's discovered chunk list does not occur in
the assembly at all — so every valid `.json` checkpoint file present,
including one left over from a chunk that is no longer among the discovered
chunks, contributes its clause array as a contiguous block of the final
master list. -/
theorem C10_leftover_included (fs : Fs (TempFile TestV1.ChunkArray)) (n : String)
    (L : TestV1.ChunkArray) (hnd : (fsNames fs).Nodup)
    (hmem : (n, TempFile.valid L) ∈ fs) (hj : strEndsWith n ".json" = true) :
    ∃ pre post, TestV1.master_clause_list fs = pre ++ L ++ post := by
  have hnmem : n ∈ fsNames fs := List.mem_map_of_mem Prod.fst hmem
  have hfil : n ∈ (fsNames fs).filter (fun x => strEndsWith x ".json") :=
    List.mem_filter.mpr ⟨hnmem, hj⟩
  have hsortmem : n ∈ jsonNamesSorted fs :=
    (sortStrings_perm ((fsNames fs).filter (fun x => strEndsWith x ".json"))).mem_iff.mpr hfil
  obtain ⟨l₁, l₂, hsplit⟩ := List.append_of_mem hsortmem
  have hread : fsRead fs n = some (TempFile.valid L) :=
    fsRead_mem_nodup fs n (TempFile.valid L) hnd hmem
  have harr : TestV1.arrayAt fs n = L := by
    unfold TestV1.arrayAt
    rw [hread]
  refine ⟨(l₁.map (TestV1.arrayAt fs)).flatten, (l₂.map (TestV1.arrayAt fs)).flatten, ?_⟩
  unfold TestV1.master_clause_list
  rw [TestV1.master_foldl fs (jsonNamesSorted fs) [], hsplit, List.map_append,
    List.map_cons, List.flatten_append, List.flatten_cons, harr]
  simp [List.append_assoc]

theorem C10_witness :
    ∃ pre post, TestV1.master_clause_list
        [("zzz.json", TempFile.valid ["LEFTOVER"])] = pre ++ ["LEFTOVER"] ++ post :=
  C10_leftover_included [("zzz.json", TempFile.valid ["LEFTOVER"])] "zzz.json"
    ["LEFTOVER"] (by decide) (by decide) (by decide)

end Extraction

namespace Extraction

/-- C1 counterexample: in the structured mode (test.py) the payload order of
the assembled artifact follows the lexicographic order of the checkpoint file
names listed from the checkpoint directory, not the document's canonical
chunk order.  For a document with initial chunk `b.pdf` and overlap chunk
`a.pdf`, the canonical order is `b` then `a` (initial group before overlap
group), but the artifact holds `a`'s clauses before `b`'s: `["A1", "B1"]`
instead of the canonical-order concatenation `["B1", "A1"]`. -/
theorem C1_counterexample :
    TestPy.final_json_data
        [("b.json", TempFile.valid ⟨some "Unknown", some "Unknown", ["B1"]⟩),
         ("a.json", TempFile.valid ⟨some "Unknown", some "Unknown", ["A1"]⟩)]
      = some ⟨some "Unknown", some "Unknown", ["A1", "B1"]⟩ ∧
    chunksSortedByPath ["b.pdf"] ["a.pdf"]
      = [⟨"Initial Chunk", "b.pdf"⟩, ⟨"Overlap Chunk", "a.pdf"⟩] ∧
    ((chunksSortedByPath ["b.pdf"] ["a.pdf"]).map
        (fun c => TestPy.clausesAt
          [("b.json", TempFile.valid ⟨some "Unknown", some "Unknown", ["B1"]⟩),
           ("a.json", TempFile.valid ⟨some "Unknown", some "Unknown", ["A1"]⟩)]
          (ckptName ".json" c))).flatten = ["B1", "A1"] ∧
    (["A1", "B1"] : List Clause) ≠ ["B1", "A1"] := by decide

/-- C1 amended: the assembled artifact is a function of the checkpoint set
alone — processing a document's chunks in any two orders that are
permutations of one another, against the same initial checkpoint directory
and the same per-chunk attempt oracle, yields byte-identical artifacts
(stated for test.py; serialisation of the equal artifact value is
deterministic) — but in the structured modes the payload order inside the
artifact is the lexicographic order of the checkpoint file names from the
checkpoint directory, not the canonical chunk order (see the counterexample).
Distinct chunk checkpoint names and distinct directory file names are
assumed; with colliding stems the outcome is genuinely order-dependent. -/
theorem C1_amended_order_invariance (fs0 : Fs (TempFile TestPy.ChunkJson))
    (o : Chunk → Nat → Outcome TestPy.ChunkJson) (chunks₁ chunks₂ : List Chunk)
    (hperm : chunks₁.Perm chunks₂)
    (hndC : (chunks₁.map (ckptName ".json")).Nodup)
    (hndF : (fsNames fs0).Nodup) :
    TestPy.final_json_data ((TestPy.processChunksT fs0 chunks₁ o).fs)
      = TestPy.final_json_data ((TestPy.processChunksT fs0 chunks₂ o).fs) := by
  have hndC2 : (chunks₂.map (ckptName ".json")).Nodup :=
    ((hperm.map (ckptName ".json")).nodup_iff).mp hndC
  unfold TestPy.processChunksT
  have h1 := (processChunks_eq ".json" TestPy.PROACTIVE_DELAY_SECONDS
    TestPy.errCooldown TempFile.valid o chunks₁ fs0 hndC).1
  have h2 := (processChunks_eq ".json" TestPy.PROACTIVE_DELAY_SECONDS
    TestPy.errCooldown TempFile.valid o chunks₂ fs0 hndC2).1
  have hnd1 : (fsNames ((processChunks ".json" TestPy.PROACTIVE_DELAY_SECONDS
      TestPy.errCooldown TempFile.valid fs0 chunks₁ o).fs)).Nodup :=
    processChunks_nodup ".json" TestPy.PROACTIVE_DELAY_SECONDS TestPy.errCooldown
      TempFile.valid o chunks₁ fs0 hndF hndC
  have hpermfs : ((processChunks ".json" TestPy.PROACTIVE_DELAY_SECONDS
        TestPy.errCooldown TempFile.valid fs0 chunks₁ o).fs).Perm
      ((processChunks ".json" TestPy.PROACTIVE_DELAY_SECONDS TestPy.errCooldown
        TempFile.valid fs0 chunks₂ o).fs) := by
    rw [h1, h2]
    exact List.Perm.append_left fs0
      (hperm.filterMap (chunkWrite ".json" TestPy.PROACTIVE_DELAY_SECONDS
        TestPy.errCooldown TempFile.valid fs0 o))
  exact TestPy.final_json_perm hpermfs hnd1

theorem C1_amended_witness :
    TestPy.final_json_data ((TestPy.processChunksT []
        [⟨"Initial Chunk", "b.pdf"⟩, ⟨"Overlap Chunk", "a.pdf"⟩]
        (fun c _ => Outcome.ok ⟨some "Unknown", some "Unknown", [c.filename]⟩)).fs)
      = TestPy.final_json_data ((TestPy.processChunksT []
        [⟨"Overlap Chunk", "a.pdf"⟩, ⟨"Initial Chunk", "b.pdf"⟩]
        (fun c _ => Outcome.ok ⟨some "Unknown", some "Unknown", [c.filename]⟩)).fs) :=
  C1_amended_order_invariance []
    (fun c _ => Outcome.ok ⟨some "Unknown", some "Unknown", [c.filename]⟩)
    [⟨"Initial Chunk", "b.pdf"⟩, ⟨"Overlap Chunk", "a.pdf"⟩]
    [⟨"Overlap Chunk", "a.pdf"⟩, ⟨"Initial Chunk", "b.pdf"⟩]
    (List.Perm.swap (⟨"Overlap Chunk", "a.pdf"⟩ : Chunk)
      (⟨"Initial Chunk", "b.pdf"⟩ : Chunk) [])
    (by decide) (by decide)

/-- C5 counterexample: two chunks with the same filename stem in different
subfolders share one checkpoint identity (the identity is only the stem, the
subfolder is not part of it).  In a first run the initial chunk `a.pdf`
succeeds and writes `a.txt`; the loop then skips the distinct overlap chunk
`a.pdf` although it was never extracted (only the initial chunk appears in
the attempted list).  A re-run with a working extractor attempts nothing at
all, so the never-extracted overlap chunk stays skipped: re-running does not
retry exactly the not-yet-completed chunks. -/
theorem C5_counterexample :
    (ExtractScript.processChunksT []
        [⟨"Initial Chunk", "a.pdf"⟩, ⟨"Overlap Chunk", "a.pdf"⟩]
        (fun c _ => if c.subfolder = "Initial Chunk"
          then Outcome.ok "A" else Outcome.err false)).fs
      = [("a.txt", "A")] ∧
    (ExtractScript.processChunksT []
        [⟨"Initial Chunk", "a.pdf"⟩, ⟨"Overlap Chunk", "a.pdf"⟩]
        (fun c _ => if c.subfolder = "Initial Chunk"
          then Outcome.ok "A" else Outcome.err false)).attempted
      = [⟨"Initial Chunk", "a.pdf"⟩] ∧
    (ExtractScript.processChunksT [("a.txt", "A")]
        [⟨"Initial Chunk", "a.pdf"⟩, ⟨"Overlap Chunk", "a.pdf"⟩]
        (fun _ _ => Outcome.ok "B")).attempted = [] ∧
    (ExtractScript.processChunksT [("a.txt", "A")]
        [⟨"Initial Chunk", "a.pdf"⟩, ⟨"Overlap Chunk", "a.pdf"⟩]
        (fun _ _ => Outcome.ok "B")).calls = 0 := by decide

/-- C5 amended: chunk checkpoint identity is the pure function
(document name, filename stem) — the file `stem + ".txt"` inside the
document's folder of the checkpoint directory — and, provided the checkpoint
names derived from the stems of the document's chunks are pairwise distinct,
a (re-)run attempts exactly the chunks without a checkpoint and skips exactly
the checkpointed ones.  When two chunks share a stem they share one identity
and the later one is silently skipped although it was never extracted (see
the counterexample). -/
theorem C5_amended_resume_exactness (fs0 : Fs String) (chunks : List Chunk)
    (o : Chunk → Nat → Outcome String)
    (hnd : (chunks.map (ckptName ".txt")).Nodup) :
    (ExtractScript.processChunksT fs0 chunks o).attempted
      = chunks.filter (fun c => !(fsExists fs0 (ckptName ".txt" c))) := by
  unfold ExtractScript.processChunksT
  exact (processChunks_eq ".txt" ExtractScript.PROACTIVE_DELAY_SECONDS
    ExtractScript.textCooldown id o chunks fs0 hnd).2

theorem C5_amended_witness :
    (ExtractScript.processChunksT [("a.txt", "A")]
        [⟨"Initial Chunk", "a.pdf"⟩, ⟨"Initial Chunk", "b.pdf"⟩]
        (fun _ _ => Outcome.ok "T")).attempted
      = List.filter (fun c => !(fsExists [("a.txt", "A")] (ckptName ".txt" c)))
          [⟨"Initial Chunk", "a.pdf"⟩, ⟨"Initial Chunk", "b.pdf"⟩] :=
  C5_amended_resume_exactness [("a.txt", "A")]
    [⟨"Initial Chunk", "a.pdf"⟩, ⟨"Initial Chunk", "b.pdf"⟩]
    (fun _ _ => Outcome.ok "T") (by decide)

end Extraction
